import Mathlib

/-!
Verification development for the UML-extraction backend.

The definitions below are a shallow embedding of the Python sources under
`backend/app`:
  - `models/uml_model.py` (data model, mutation API, serialization),
  - `utils/mermaid_converter.py` (diagram renderer and validator),
  - `utils/text_preprocessing.py` (text cleaning),
  - `services/nlp_processor.py` (pipeline, entity merge, post-processing),
  - `api/nlp_routes.py` (extraction endpoint input validation),
  - `api/diagram_routes.py` (quality score).

Modelling conventions:
  - Python `str` is Lean `String`; string manipulation is defined over
    `String.data` (`List Char`) so every operation reduces in the kernel.
    `str.lower` is modelled with `Char.toLower` per character, and string
    comparison (`<` on `str`) as lexicographic comparison of code points:
    both agree with CPython on ASCII data, which is all the code produces.
  - Python `float` values (confidences, positions, the quality score) are
    modelled as `ℚ`: the code only stores, serializes and compares them
    (never does arithmetic that could round), so the order embedding of
    the floats into `ℚ` is exact.
  - A Python function that can raise returns `PyResult`; the error payload
    is the exception rendered as a string.
  - Python `list.sort(key=k)` is a stable sort ordering by `k`; it is
    modelled by a stable insertion sort with the same comparison.
-/

/-- Result of running a Python call that may raise: either a value or an
uncaught exception (carried as its display string). -/
inductive PyResult (α : Type) where
  | ok (val : α)
  | error (msg : String)
deriving DecidableEq

/-- Extract the value of a `PyResult`, with a default for the error case. -/
def PyResult.getD {α : Type} (r : PyResult α) (default : α) : α :=
  match r with
  | .ok v => v
  | .error _ => default

/-- Python whitespace class `\s` (ASCII part): space, tab, newline,
carriage return, vertical tab, form feed. -/
def isPySpace (c : Char) : Bool :=
  c == ' ' || c == '\t' || c == '\n' || c == '\r' || c == '\x0b' || c == '\x0c'

/-- Python `str.lower`, per-character (ASCII-faithful). -/
def pyLower (s : String) : String := ⟨s.data.map Char.toLower⟩

/-- Python `str.strip()` on a character list: drop whitespace from both
ends. -/
def pyStripList (l : List Char) : List Char :=
  ((l.dropWhile isPySpace).reverse.dropWhile isPySpace).reverse

/-- Python `str.strip()`. -/
def pyStrip (s : String) : String := ⟨pyStripList s.data⟩

/-- Python `str.replace(old, new)` (all non-overlapping occurrences, left
to right) on character lists; every pattern the sources pass is non-empty. -/
def replaceAll (pat rep : List Char) (l : List Char) : List Char :=
  match l with
  | [] => []
  | c :: cs =>
    if pat ≠ [] ∧ pat.isPrefixOf (c :: cs) then
      rep ++ replaceAll pat rep ((c :: cs).drop pat.length)
    else
      c :: replaceAll pat rep cs
termination_by l.length
decreasing_by
  · simp only [List.length_drop, List.length_cons]
    rcases pat with _ | ⟨p, ps⟩
    · simp_all
    · simp only [List.length_cons]
      omega
  · simp

/-- Python `str.replace` lifted to `String`. -/
def pyReplace (s pat rep : String) : String := ⟨replaceAll pat.data rep.data s.data⟩

/-- Replace the first element satisfying `p` by its image under `f`
(Python: rebinding the value slot found by a linear search). -/
def updateFirst {α : Type} (p : α → Bool) (f : α → α) : List α → List α
  | [] => []
  | x :: xs => if p x then f x :: xs else x :: updateFirst p f xs

/-- Remove the first element satisfying `p` (Python `list.remove` of the
first element found by a linear search). -/
def removeFirst {α : Type} (p : α → Bool) : List α → List α
  | [] => []
  | x :: xs => if p x then xs else x :: removeFirst p xs

/-- Python `<` on single characters: code-point comparison. -/
def charLt (a b : Char) : Bool := a.toNat < b.toNat

/-- Python `<` on strings (character lists): lexicographic by code point. -/
def charListLt : List Char → List Char → Bool
  | [], [] => false
  | [], _ :: _ => true
  | _ :: _, [] => false
  | a :: as, b :: bs => if charLt a b then true else if charLt b a then false else charListLt as bs

/-- Python `<=` on strings (character lists). -/
def charListLe : List Char → List Char → Bool
  | [], _ => true
  | _ :: _, [] => false
  | a :: as, b :: bs => if charLt a b then true else if charLt b a then false else charListLe as bs

/-- Stable insertion of `x` after every element `y` with `le y x` (the
position a stable sort gives to `x` relative to earlier elements). -/
def pyInsert {α : Type} (le : α → α → Bool) (x : α) : List α → List α
  | [] => [x]
  | y :: ys => if le y x then y :: pyInsert le x ys else x :: y :: ys

/-- Python `list.sort` with comparison `le`: stable, orders by `le`.
Modelled as stable insertion sort (any two stable sorts with the same
total preorder agree pointwise). -/
def pySort {α : Type} (le : α → α → Bool) (l : List α) : List α :=
  l.foldl (fun acc x => pyInsert le x acc) []

/-- Python `", ".join(...)`-style separator join. -/
def joinWith (sep : String) : List String → String
  | [] => ""
  | [s] => s
  | s :: rest => s ++ sep ++ joinWith sep rest

/-! Data model, from `models/uml_model.py`. -/

/-- Enum `RelationshipType` (uml_model.py lines 5-9). -/
inductive RelationshipType where
  | composition
  | aggregation
  | association
  | inheritance
deriving DecidableEq

/-- String tag of each enum member (`.value`). -/
def RelationshipType.value : RelationshipType → String
  | .composition => "composition"
  | .aggregation => "aggregation"
  | .association => "association"
  | .inheritance => "inheritance"

/-- Inverse of `.value`: Python `RelationshipType(tag)`, `none` models the
`ValueError` raised on an unknown tag. -/
def relationshipTypeOfValue (s : String) : Option RelationshipType :=
  if s = "composition" then some .composition
  else if s = "aggregation" then some .aggregation
  else if s = "association" then some .association
  else if s = "inheritance" then some .inheritance
  else none

/-- Dataclass `Attribute` (uml_model.py lines 11-16). -/
structure Attribute where
  name : String
  type : String := "String"
  visibility : String := "+"
  is_static : Bool := false
deriving DecidableEq

/-- Dataclass `Method` (uml_model.py lines 18-28); `parameters=None`
defaults to `[]` in `__post_init__`. -/
structure Method where
  name : String
  parameters : List String := []
  return_type : String := "void"
  visibility : String := "+"
  is_static : Bool := false
deriving DecidableEq

/-- Dataclass `Point` (uml_model.py lines 30-33). -/
structure Point where
  x : ℚ
  y : ℚ
deriving DecidableEq

/-- Dataclass `UMLClass` (uml_model.py lines 35-49); `None` defaults from
`__post_init__` are the Lean field defaults. -/
structure UMLClass where
  name : String
  attributes : List Attribute := []
  methods : List Method := []
  position : Point := ⟨0, 0⟩
  confidence : ℚ := 1
deriving DecidableEq

/-- Dataclass `UMLRelationship` (uml_model.py lines 51-59). -/
structure UMLRelationship where
  source : String
  target : String
  type : RelationshipType
  multiplicity_source : String := "1"
  multiplicity_target : String := "1"
  label : String := ""
  confidence : ℚ := 1
deriving DecidableEq

/-- Class `UMLModel` (uml_model.py lines 61-64): a list of classes and a
list of relationships. -/
structure UMLModel where
  classes : List UMLClass := []
  relationships : List UMLRelationship := []
deriving DecidableEq

/-- `UMLModel.__init__`: both lists empty. -/
def UMLModel.empty : UMLModel := {}

/-- `find_class` (lines 85-89): first class whose lowercased name matches
the lowercased argument. -/
def UMLModel.find_class (m : UMLModel) (name : String) : Option UMLClass :=
  m.classes.find? (fun cls => pyLower cls.name == pyLower name)

/-- `find_relationship` (lines 91-96): first relationship whose lowercased
(source, target) pair matches. -/
def UMLModel.find_relationship (m : UMLModel) (source target : String) :
    Option UMLRelationship :=
  m.relationships.find?
    (fun rel => pyLower rel.source == pyLower source && pyLower rel.target == pyLower target)

/-- Merge step of `add_class` (lines 70-72): extend the existing class
with those attributes and methods of the incoming class not already
present by full-field (dataclass) equality. The filters are evaluated
against the pre-extension lists, as Python's list comprehensions are. -/
def mergeClassInto (existing incoming : UMLClass) : UMLClass :=
  { existing with
    attributes :=
      existing.attributes ++ incoming.attributes.filter (fun a => decide (a ∉ existing.attributes)),
    methods :=
      existing.methods ++ incoming.methods.filter (fun mth => decide (mth ∉ existing.methods)) }

/-- `add_class` (lines 66-74): merge into the existing case-insensitive
name match if there is one, otherwise append. -/
def UMLModel.add_class (m : UMLModel) (uml_class : UMLClass) : UMLModel :=
  match m.find_class uml_class.name with
  | some _ =>
    { m with
      classes :=
        updateFirst (fun cls => pyLower cls.name == pyLower uml_class.name)
          (fun cls => mergeClassInto cls uml_class) m.classes }
  | none => { m with classes := m.classes ++ [uml_class] }

/-- `add_relationship` (lines 76-83): overwrite type and confidence on
the existing case-insensitive (source, target) match, else append. -/
def UMLModel.add_relationship (m : UMLModel) (relationship : UMLRelationship) : UMLModel :=
  match m.find_relationship relationship.source relationship.target with
  | some _ =>
    { m with
      relationships :=
        updateFirst
          (fun rel => pyLower rel.source == pyLower relationship.source &&
                      pyLower rel.target == pyLower relationship.target)
          (fun rel => { rel with type := relationship.type, confidence := relationship.confidence })
          m.relationships }
  | none => { m with relationships := m.relationships ++ [relationship] }

/-- `remove_class` (lines 98-106). The class is located case-insensitively
and removed (`list.remove` removes the first value-equal element, which is
exactly the first case-insensitive match); relationships are kept only if
both endpoints differ from the argument by *case-sensitive* comparison.
Returns the updated model and whether a class was found. -/
def UMLModel.remove_class (m : UMLModel) (name : String) : UMLModel × Bool :=
  match m.find_class name with
  | some _ =>
    ({ classes := removeFirst (fun cls => pyLower cls.name == pyLower name) m.classes,
       relationships :=
         m.relationships.filter (fun rel => !(rel.source == name) && !(rel.target == name)) },
     true)
  | none => (m, false)

/-- `remove_relationship` (lines 108-113): case-insensitive pair lookup;
the first match is removed. -/
def UMLModel.remove_relationship (m : UMLModel) (source target : String) : UMLModel × Bool :=
  match m.find_relationship source target with
  | some _ =>
    ({ m with
       relationships :=
         removeFirst
           (fun rel => pyLower rel.source == pyLower source &&
                       pyLower rel.target == pyLower target)
           m.relationships },
     true)
  | none => (m, false)

/-- Case-insensitive key of a class, the uniqueness key of the model. -/
def classKey (c : UMLClass) : String := pyLower c.name

/-- Case-insensitive key of a relationship. -/
def relKey (r : UMLRelationship) : String × String := (pyLower r.source, pyLower r.target)

/-- No two classes share a case-insensitive name. -/
def ClassesUnique (m : UMLModel) : Prop := (m.classes.map classKey).Nodup

/-- No two relationships share a case-insensitive (source, target) pair. -/
def RelationshipsUnique (m : UMLModel) : Prop := (m.relationships.map relKey).Nodup

/-- Uniqueness invariant of `UMLModel`. -/
def UMLModel.Invariant (m : UMLModel) : Prop := ClassesUnique m ∧ RelationshipsUnique m

instance : DecidablePred UMLModel.Invariant := fun m =>
  inferInstanceAs (Decidable ((m.classes.map classKey).Nodup ∧ (m.relationships.map relKey).Nodup))

/-- One call of the mutation API. -/
inductive ModelOp where
  | addClass (c : UMLClass)
  | addRelationship (r : UMLRelationship)
  | removeClass (name : String)
  | removeRelationship (source target : String)

/-- Apply one mutation call. -/
def applyOp (m : UMLModel) : ModelOp → UMLModel
  | .addClass c => m.add_class c
  | .addRelationship r => m.add_relationship r
  | .removeClass name => (m.remove_class name).1
  | .removeRelationship s t => (m.remove_relationship s t).1

/-- Apply a finite sequence of mutation calls in order. -/
def applyOps (m : UMLModel) (ops : List ModelOp) : UMLModel := ops.foldl applyOp m

/-! Serialization: `to_dict` / `from_dict` (uml_model.py lines 115-200).
The wire format is modelled by `*Dict` structures whose fields are the
dict keys the code emits; `from_dict`'s `.get(key, default)` calls mean a
well-formed wire dict is equivalent to one of these records with the
defaults filled in. -/

/-- Wire form of an attribute. -/
structure AttributeDict where
  name : String
  type : String
  visibility : String
  is_static : Bool
deriving DecidableEq

/-- Wire form of a method. -/
structure MethodDict where
  name : String
  parameters : List String
  return_type : String
  visibility : String
  is_static : Bool
deriving DecidableEq

/-- Wire form of a position. -/
structure PositionDict where
  x : ℚ
  y : ℚ
deriving DecidableEq

/-- Wire form of a class. -/
structure ClassDict where
  name : String
  attributes : List AttributeDict
  methods : List MethodDict
  position : PositionDict
  confidence : ℚ
deriving DecidableEq

/-- Wire form of a relationship; `type` is the enum's string tag. -/
structure RelationshipDict where
  source : String
  target : String
  type : String
  multiplicity_source : String
  multiplicity_target : String
  label : String
  confidence : ℚ
deriving DecidableEq

/-- Wire form of a model. -/
structure ModelDict where
  classes : List ClassDict
  relationships : List RelationshipDict
deriving DecidableEq

/-- Serialization of one attribute (to_dict, lines 120-127). -/
def Attribute.to_dict (a : Attribute) : AttributeDict :=
  ⟨a.name, a.type, a.visibility, a.is_static⟩

/-- Serialization of one method (to_dict, lines 128-136). -/
def Method.to_dict (mth : Method) : MethodDict :=
  ⟨mth.name, mth.parameters, mth.return_type, mth.visibility, mth.is_static⟩

/-- Serialization of one class (to_dict, lines 117-139). -/
def UMLClass.to_dict (c : UMLClass) : ClassDict :=
  ⟨c.name, c.attributes.map Attribute.to_dict, c.methods.map Method.to_dict,
   ⟨c.position.x, c.position.y⟩, c.confidence⟩

/-- Serialization of one relationship (to_dict, lines 141-151);
the enum is emitted as its string tag. -/
def UMLRelationship.to_dict (r : UMLRelationship) : RelationshipDict :=
  ⟨r.source, r.target, r.type.value, r.multiplicity_source, r.multiplicity_target,
   r.label, r.confidence⟩

/-- `UMLModel.to_dict` (lines 115-152). -/
def UMLModel.to_dict (m : UMLModel) : ModelDict :=
  ⟨m.classes.map UMLClass.to_dict, m.relationships.map UMLRelationship.to_dict⟩

/-- Reconstruction of one class from wire data (from_dict, lines 159-184). -/
def classOfDict (cd : ClassDict) : UMLClass :=
  { name := cd.name,
    attributes := cd.attributes.map (fun a => ⟨a.name, a.type, a.visibility, a.is_static⟩),
    methods := cd.methods.map (fun mth => ⟨mth.name, mth.parameters, mth.return_type,
                                           mth.visibility, mth.is_static⟩),
    position := ⟨cd.position.x, cd.position.y⟩,
    confidence := cd.confidence }

/-- Reconstruction of one relationship from wire data (from_dict, lines
188-197), given the already-parsed enum member. -/
def relationshipOfDict (rd : RelationshipDict) (t : RelationshipType) : UMLRelationship :=
  { source := rd.source, target := rd.target, type := t,
    multiplicity_source := rd.multiplicity_source,
    multiplicity_target := rd.multiplicity_target,
    label := rd.label, confidence := rd.confidence }

/-- Relationship loop of `from_dict`: each wire relationship is parsed
(`RelationshipType(tag)` raises `ValueError` on an unknown tag, aborting
the whole call) and added through `add_relationship`. -/
def addRelationshipsFromDicts (m : UMLModel) : List RelationshipDict → PyResult UMLModel
  | [] => .ok m
  | rd :: rds =>
    match relationshipTypeOfValue rd.type with
    | some t => addRelationshipsFromDicts (m.add_relationship (relationshipOfDict rd t)) rds
    | none => .error ("ValueError: " ++ rd.type ++ " is not a valid RelationshipType")

/-- `UMLModel.from_dict` (lines 154-200): rebuild an empty model by
`add_class` over the wire classes in order, then `add_relationship` over
the wire relationships in order. -/
def UMLModel.from_dict (data : ModelDict) : PyResult UMLModel :=
  addRelationshipsFromDicts
    (data.classes.foldl (fun m cd => m.add_class (classOfDict cd)) UMLModel.empty)
    data.relationships

/-! Diagram renderer and validator, from `utils/mermaid_converter.py`.

The module as shipped does not load: line 37 reads
`lines = [f"class {cls.name} {{"}]`, whose stray closing brace is a
`SyntaxError`, so importing `MermaidConverter` raises and none of these
functions can run. The rendering functions below embed the module with
line 37 read as the evidently intended `[f"class {cls.name} {{"]`
(producing `class <name> {`); the validator additionally models the
`NameError` its body raises (see `validate_mermaid_syntax`). -/

/-- Connector table `relationship_symbols` (lines 5-11). -/
def relationship_symbol : RelationshipType → String
  | .composition => "*--"
  | .aggregation => "o--"
  | .association => "--"
  | .inheritance => "<|--"

/-- `_format_mermaid_class` (lines 35-55), with line 37 read as intended
(see module note above): header line, one line per attribute, one line
per method, closing brace. -/
def format_mermaid_class (cls : UMLClass) : List String :=
  ["class " ++ cls.name ++ " \x7b"]
  ++ cls.attributes.map (fun attr =>
      let attr_line := "    " ++ attr.visibility ++ attr.name ++ ": " ++ attr.type
      if attr.is_static then attr_line ++ " $static" else attr_line)
  ++ cls.methods.map (fun mth =>
      let params := joinWith ", " mth.parameters
      let method_line := "    " ++ mth.visibility ++ mth.name ++ "(" ++ params ++ "): "
                         ++ mth.return_type
      if mth.is_static then method_line ++ " $static" else method_line)
  ++ ["\x7d"]

/-- `_format_mermaid_relationship` (lines 57-65): multiplicities are
quoted when non-empty, the label is appended after " : " when non-empty,
and the assembled line is stripped. -/
def format_mermaid_relationship (relationship : UMLRelationship) : String :=
  let symbol := relationship_symbol relationship.type
  let multiplicity_source :=
    if relationship.multiplicity_source ≠ "" then
      "\"" ++ relationship.multiplicity_source ++ "\"" else ""
  let multiplicity_target :=
    if relationship.multiplicity_target ≠ "" then
      "\"" ++ relationship.multiplicity_target ++ "\"" else ""
  let label := if relationship.label ≠ "" then " : " ++ relationship.label else ""
  pyStrip (relationship.source ++ " " ++ multiplicity_source ++ " " ++ symbol ++ " "
           ++ multiplicity_target ++ " " ++ relationship.target ++ label)

/-- `_optimize_layout` (lines 67-80): computes an unused list of class
names and returns its input unchanged. -/
def optimize_layout (mermaid_lines : List String) : List String := mermaid_lines

/-- `convert_to_mermaid` (lines 13-33): a fixed note diagram for a model
with no classes; otherwise the directive line, the class blocks, the
relationship lines, joined by newline plus four-space indentation. -/
def convert_to_mermaid (uml_model : UMLModel) : String :=
  if uml_model.classes.isEmpty then
    "classDiagram\n    note \"No classes found\""
  else
    joinWith "\n    "
      (optimize_layout
        (["classDiagram"]
         ++ uml_model.classes.flatMap format_mermaid_class
         ++ uml_model.relationships.map format_mermaid_relationship))

/-- Validation report dict built by `validate_mermaid_syntax`. -/
structure ValidationResult where
  is_valid : Bool
  errors : List String
  warnings : List String
deriving DecidableEq

/-- The checks of `validate_mermaid_syntax` (lines 90-100) that execute
before the crash point: the `classDiagram` directive must lead, and the
counts of opening and closing braces must agree. -/
def validate_checks_before_crash (mermaid_code : String) : ValidationResult :=
  let v0 : ValidationResult := ⟨true, [], []⟩
  let v1 :=
    if !(("classDiagram" : String).data.isPrefixOf mermaid_code.data) then
      { v0 with errors := v0.errors ++ ["Missing \x27classDiagram\x27 directive"],
                is_valid := false }
    else v0
  let open_braces := (mermaid_code.data.filter (fun c => c == '\x7b')).length
  let close_braces := (mermaid_code.data.filter (fun c => c == '\x7d')).length
  if open_braces ≠ close_braces then
    { v1 with errors := v1.errors ++ ["Unbalanced braces in class definitions"],
              is_valid := false }
  else v1

/-- `validate_mermaid_syntax` (lines 82-113). After the directive and
brace checks, line 103 evaluates `re.search(...)` — but
`mermaid_converter.py` never imports `re`, so CPython raises `NameError`
there on every call and the function never returns its report. -/
def validate_mermaid_syntax (mermaid_code : String) : PyResult ValidationResult :=
  let _partial_report := validate_checks_before_crash mermaid_code
  .error "NameError: name \x27re\x27 is not defined"

/-! NLP pipeline pieces, from `models/nlp_result.py` and
`services/nlp_processor.py`. -/

/-- Class `NLPEntity` (nlp_result.py lines 3-10). -/
structure NLPEntity where
  text : String
  label : String
  confidence : ℚ
  start : Int
  «end» : Int
  belongs_to : Option String := none
deriving DecidableEq

/-- Case-insensitive grouping key of an entity in the duplicate merge. -/
def entityKey (e : NLPEntity) : String := pyLower e.text

/-- One step of `_merge_duplicate_entities` (nlp_processor.py lines
82-95): Python's insertion-ordered dict keyed by `text.lower()`; a new
key is appended, an existing key's slot is overwritten exactly when the
incoming confidence is strictly greater. -/
def mergeEntityStep (acc : List NLPEntity) (e : NLPEntity) : List NLPEntity :=
  if acc.any (fun x => entityKey x == entityKey e) then
    updateFirst (fun x => entityKey x == entityKey e)
      (fun x => if e.confidence > x.confidence then e else x) acc
  else acc ++ [e]

/-- Loop of `_merge_duplicate_entities` over the input entities. -/
def mergeDupAux (acc : List NLPEntity) : List NLPEntity → List NLPEntity
  | [] => acc
  | e :: es => mergeDupAux (mergeEntityStep acc e) es

/-- `_merge_duplicate_entities` (nlp_processor.py lines 82-95):
`list(entity_map.values())` in key-insertion order. -/
def merge_duplicate_entities (entities : List NLPEntity) : List NLPEntity :=
  mergeDupAux [] entities

/-- Drop elements whose key was already seen (the `seen_attrs` /
`seen_methods` set loops of `_post_process_uml_model`, lines 311-329). -/
def dedupByKey {α : Type} (key : α → String) (seen : List String) : List α → List α
  | [] => []
  | x :: xs =>
    if seen.contains (key x) then dedupByKey key seen xs
    else x :: dedupByKey key (key x :: seen) xs

/-- Sort key of a class in post-processing: its lowercased name. -/
def classSortLe (a b : UMLClass) : Bool :=
  charListLe (pyLower a.name).data (pyLower b.name).data

/-- Sort key of a relationship in post-processing: the lowercased
(source, target) pair, compared as Python compares tuples. -/
def relSortLe (a b : UMLRelationship) : Bool :=
  charListLt (pyLower a.source).data (pyLower b.source).data
  || ((pyLower a.source).data == (pyLower b.source).data
      && charListLe (pyLower a.target).data (pyLower b.target).data)

/-- `_post_process_uml_model` (nlp_processor.py lines 309-339): drop
duplicate attributes then duplicate methods within each class by
lowercased name (keeping first), drop self-referencing relationships
(case-insensitive), then sort classes by lowercased name and
relationships by lowercased (source, target). -/
def post_process_uml_model (m : UMLModel) : UMLModel :=
  let classes1 := m.classes.map (fun cls =>
    { cls with attributes := dedupByKey (fun attr => pyLower attr.name) [] cls.attributes })
  let classes2 := classes1.map (fun cls =>
    { cls with methods := dedupByKey (fun mth => pyLower mth.name) [] cls.methods })
  let rels1 := m.relationships.filter (fun rel => !(pyLower rel.source == pyLower rel.target))
  { classes := pySort classSortLe classes2,
    relationships := pySort relSortLe rels1 }

/-- `_calculate_quality_score` (diagram_routes.py lines 377-403), as a
function of the four totals the stats dict carries: 20 points each for
having classes, attributes, methods, relationships, plus 20 bonus when
classes, attributes and relationships are all present, capped at 100. -/
def calculate_quality_score (classes_total attributes_total methods_total
    relationships_total : ℕ) : ℚ :=
  let score : ℚ := 0
  let score := if classes_total > 0 then score + 20 else score
  let score := if attributes_total > 0 then score + 20 else score
  let score := if methods_total > 0 then score + 20 else score
  let score := if relationships_total > 0 then score + 20 else score
  let score :=
    if classes_total > 0 ∧ attributes_total > 0 ∧ relationships_total > 0 then score + 20
    else score
  min score 100

/-- Total attribute count of a model as `get_statistics` computes it
(diagram_routes.py line 320). -/
def attributesTotal (m : UMLModel) : ℕ :=
  (m.classes.map (fun cls => cls.attributes.length)).sum

/-- Total method count of a model (diagram_routes.py line 324). -/
def methodsTotal (m : UMLModel) : ℕ :=
  (m.classes.map (fun cls => cls.methods.length)).sum

/-- The quality score of a model, with the four totals taken from the
model exactly as the statistics endpoint assembles them. -/
def qualityScoreOfModel (m : UMLModel) : ℚ :=
  calculate_quality_score m.classes.length (attributesTotal m) (methodsTotal m)
    m.relationships.length

/-! Text preprocessing, from `utils/text_preprocessing.py`. -/

/-- Characters the third cleaning substitution keeps (the allow-list of
`re.sub(r'[^\w\s,.!?;:\-\'"(){}[\]<>]', ' ', text)`, line 43); `\w` is
word characters (ASCII reading: alphanumeric or underscore). -/
def isAllowedCleanChar (c : Char) : Bool :=
  c.isAlphanum || c == '_' || isPySpace c
  || c == ',' || c == '.' || c == '!' || c == '?' || c == ';' || c == ':'
  || c == '-' || c == '\x27' || c == '"' || c == '(' || c == ')'
  || c == '\x7b' || c == '\x7d' || c == '[' || c == ']' || c == '<' || c == '>'

/-- First cleaning substitution (line 37), `re.sub(r'\s+', ' ', text)`:
collapse every whitespace run to a single space. -/
def collapseWs : List Char → List Char
  | [] => []
  | c :: cs =>
    if isPySpace c then ' ' :: collapseWs (cs.dropWhile isPySpace)
    else c :: collapseWs cs
termination_by l => l.length
decreasing_by
  · have := List.Sublist.length_le (List.dropWhile_sublist (l := cs) isPySpace)
    simp only [List.length_cons]
    omega
  · simp

/-- Membership in the punctuation class `[,.!?;:]` of line 40. -/
def isSpacedPunct (c : Char) : Bool :=
  c == ',' || c == '.' || c == '!' || c == '?' || c == ';' || c == ':'

/-- Second cleaning substitution (line 40),
`re.sub(r'\s*([,.!?;:])\s*', r'\1 ', text)`: at each leftmost match a
whitespace run (possibly empty) followed by one of `,.!?;:` and its
trailing whitespace run is rewritten to the punctuation mark plus one
space; positions where the whitespace run is not followed by such a mark
are copied unchanged. -/
def fixPunctSpacing : List Char → List Char
  | [] => []
  | c :: cs =>
    if isSpacedPunct c then c :: ' ' :: fixPunctSpacing (cs.dropWhile isPySpace)
    else if isPySpace c then
      match h : (c :: cs).dropWhile isPySpace with
      | p :: rs =>
        if isSpacedPunct p then p :: ' ' :: fixPunctSpacing (rs.dropWhile isPySpace)
        else c :: fixPunctSpacing cs
      | [] => c :: fixPunctSpacing cs
    else c :: fixPunctSpacing cs
termination_by l => l.length
decreasing_by
  · have := List.Sublist.length_le (List.dropWhile_sublist (l := cs) isPySpace)
    simp only [List.length_cons]
    omega
  · have h1 := List.Sublist.length_le (List.dropWhile_sublist (l := c :: cs) isPySpace)
    rw [h] at h1
    have h2 := List.Sublist.length_le (List.dropWhile_sublist (l := rs) isPySpace)
    simp only [List.length_cons] at h1 ⊢
    omega
  · simp
  · simp
  · simp

/-- `_clean_text` (lines 34-49). Line 46 is two no-op replaces of `"` by
itself; line 47 parses (because `'''` opens a triple-quoted string) as a
single `replace` of the literal `, "').replace(` by `'`. -/
def clean_text (text : String) : String :=
  let t1 : String := ⟨collapseWs text.data⟩
  let t2 : String := ⟨fixPunctSpacing t1.data⟩
  let t3 : String := ⟨t2.data.map (fun c => if isAllowedCleanChar c then c else ' ')⟩
  let t4 := pyReplace (pyReplace t3 "\"" "\"") "\"" "\""
  pyReplace t4 ", \"\x27\").replace(" "\x27"

/-- CPython's `str.replace` accepts no keyword arguments, so the call
`text.replace(compound, normalized, flags=re.IGNORECASE)` at
text_preprocessing.py line 66 raises `TypeError` for every receiver and
every argument pair. -/
def str_replace_with_flags_kwarg (_text _old _new : String) : PyResult String :=
  .error "str.replace() takes no keyword arguments"

/-- The `compound_terms` table of `_preserve_technical_terms` (lines
54-63), in insertion order. -/
def compound_terms : List (String × String) :=
  [("REST API", "REST_API"),
   ("user interface", "user_interface"),
   ("user account", "user_account"),
   ("shopping cart", "shopping_cart"),
   ("order details", "order_details"),
   ("connection pooling", "connection_pooling"),
   ("microservices", "microservices"),
   ("database server", "database_server")]

/-- Loop body of `_preserve_technical_terms` (lines 65-66): each
iteration calls the keyword-argument `str.replace`, so the first
iteration already raises. -/
def preserveTermsLoop (text : String) : List (String × String) → PyResult String
  | [] => .ok text
  | (compound, normalized) :: rest =>
    match str_replace_with_flags_kwarg text compound normalized with
    | .ok t2 => preserveTermsLoop t2 rest
    | .error e => .error e

/-- `_preserve_technical_terms` (lines 51-68). -/
def preserve_technical_terms (text : String) : PyResult String :=
  preserveTermsLoop text compound_terms

/-- `preprocess_text` (lines 15-32): empty input returns `""`
immediately; otherwise `_clean_text` then `_preserve_technical_terms`,
which raises on every input, so steps 3 and 4
(`_normalize_software_patterns`, `_extract_technical_terms`) and the
final `strip` are unreachable for non-empty input; they are represented
by the `strip` of the value step 2 would have produced. -/
def preprocess_text (text : String) : PyResult String :=
  if text = "" then .ok ""
  else
    let t1 := clean_text text
    match preserve_technical_terms t1 with
    | .error e => .error e
    | .ok t2 => .ok (pyStrip t2)

/-- `process_requirements` (nlp_processor.py lines 20-80). Stage 1
(preprocessing) raises for every non-empty input; the `try/except`
re-raises as `Exception("NLP processing failed: " + str(e))`. The `.ok`
branch is reachable only for the empty string (which the endpoint
rejects before calling this) and stands for the model Stages 2-5 would
build from the empty text's empty entity and relationship lists; no
theorem below depends on it. -/
def process_requirements (text : String) : PyResult UMLModel :=
  match preprocess_text text with
  | .error e => .error ("NLP processing failed: " ++ e)
  | .ok _cleaned => .ok (post_process_uml_model UMLModel.empty)

/-! Extraction endpoint, from `api/nlp_routes.py` lines 22-102. -/

/-- Response of the `/extract` route, abstracted to its discriminating
payload: the three 400-level input-validation rejections, the 500-level
`PROCESSING_ERROR` produced when the pipeline raises, and the success
payload. -/
inductive ExtractResponse where
  | missingText
  | textTooShort (received_length : ℕ)
  | textTooLong (received_length : ℕ)
  | processingError (details : String)
  | success (uml_model : UMLModel) (mermaid_code : String)
deriving DecidableEq

/-- `extract_uml` (nlp_routes.py lines 40-102): strip the text, reject
empty (`MISSING_TEXT`), stripped length < 50 (`TEXT_TOO_SHORT`) and
stripped length > 10000 (`TEXT_TOO_LONG`) before the pipeline; then run
`process_requirements`, whose exception the handler converts to a
`PROCESSING_ERROR` response carrying `str(e)`. -/
def extract_uml (raw_text : String) : ExtractResponse :=
  let text := pyStrip raw_text
  if text = "" then .missingText
  else if text.length < 50 then .textTooShort text.length
  else if text.length > 10000 then .textTooLong text.length
  else
    match process_requirements text with
    | .error details => .processingError details
    | .ok m => .success m (convert_to_mermaid m)


/-! Auxiliary definitions used by the theorems below. -/

/-- Modelled from the claim's words, for comparison with
`calculate_quality_score`: the bonus here requires attributes, methods
and relationships to be present simultaneously. -/
def quality_score_per_claim (classes_total attributes_total methods_total
    relationships_total : ℕ) : ℚ :=
  (if classes_total > 0 then (20 : ℚ) else 0)
  + (if attributes_total > 0 then 20 else 0)
  + (if methods_total > 0 then 20 else 0)
  + (if relationships_total > 0 then 20 else 0)
  + (if attributes_total > 0 ∧ methods_total > 0 ∧ relationships_total > 0 then 20 else 0)

/-- The entity `x` is the one the duplicate merge keeps from `es` for its
group: it occurs in `es`, every earlier entity with the same
case-insensitive text has strictly smaller confidence (so ties keep the
first encountered), and every later one has smaller-or-equal confidence
(so `x` carries the group's highest confidence). -/
def ChosenFrom (es : List NLPEntity) (x : NLPEntity) : Prop :=
  ∃ l r, es = l ++ x :: r ∧
    (∀ y ∈ l, entityKey y = entityKey x → y.confidence < x.confidence) ∧
    (∀ y ∈ r, entityKey y = entityKey x → y.confidence ≤ x.confidence)

/-- Loop invariant of the duplicate-entity merge: after consuming the
prefix `p`, the accumulator has pairwise-distinct keys, holds only chosen
representatives of `p`, and covers every key of `p`. -/
def MergeInv (p acc : List NLPEntity) : Prop :=
  ((acc.map entityKey).Nodup ∧ ∀ x ∈ acc, ChosenFrom p x) ∧
  ∀ y ∈ p, ∃ x ∈ acc, entityKey x = entityKey y

/-- Entity ("Order", CLASS) with confidence 9/10 = 0.9. -/
def orderEntityHigh : NLPEntity :=
  ⟨"Order", "CLASS", ⟨9, 10, by decide, by decide⟩, 0, 5, none⟩

/-- Entity ("order", CLASS) with confidence 3/5 = 0.6. -/
def orderEntityLow : NLPEntity :=
  ⟨"order", "CLASS", ⟨3, 5, by decide, by decide⟩, 10, 15, none⟩

/-- A diagram text whose opening and closing brace counts differ (two
opening braces, one closing), as after injecting an unmatched opening
brace into a rendered diagram. -/
def imbalancedDiagram : String :=
  "classDiagram\n    class User \x7b\n    +name: String\n    \x7d\n    \x7b"

/-- A two-class model with an attribute, a method and one relationship,
satisfying the uniqueness invariant; used to instantiate the general
theorems. -/
def exampleModel : UMLModel :=
  { classes := [⟨"User", [⟨"id", "Integer", "+", false⟩], [⟨"getName", [], "Object", "+", false⟩],
                 ⟨0, 0⟩, 1⟩,
                ⟨"Account", [], [], ⟨0, 0⟩, 1⟩],
    relationships := [⟨"User", "Account", .association, "1", "1..*", "owns", 1⟩] }

/-- A model exercising post-processing: unsorted class names, duplicate
attributes by case-insensitive name, and a self-referencing relationship. -/
def postProcessExample : UMLModel :=
  { classes := [⟨"Order", [⟨"id", "Integer", "+", false⟩, ⟨"ID", "String", "+", false⟩],
                 [⟨"getTotal", [], "Object", "+", false⟩], ⟨0, 0⟩, 1⟩,
                ⟨"Account", [], [], ⟨0, 0⟩, 1⟩],
    relationships := [⟨"Order", "Account", .association, "1", "1", "", 1⟩,
                      ⟨"account", "Account", .association, "1", "1", "", 1⟩] }

/-- The post-processed class the `postProcessExample` theorems talk
about: "Account" sorts first and is unchanged by deduplication. -/
def postProcessExampleClass : UMLClass := ⟨"Account", [], [], ⟨0, 0⟩, 1⟩

/-- A model realizing stats totals (2 classes, 1 attribute, 0 methods,
1 relationship): the quality-score counterexample input. -/
def qualityExample : UMLModel :=
  { classes := [⟨"User", [⟨"id", "Integer", "+", false⟩], [], ⟨0, 0⟩, 1⟩,
                ⟨"Account", [], [], ⟨0, 0⟩, 1⟩],
    relationships := [⟨"User", "Account", .association, "1", "1", "", 1⟩] }

/-- The duplicated attribute of the `add_class` counterexample. -/
def dupAttr : Attribute := ⟨"id", "Integer", "+", false⟩

/-- First `add_class` argument of the counterexample: class "Order" with
no members. -/
def orderClassEmpty : UMLClass := ⟨"Order", [], [], ⟨0, 0⟩, 1⟩

/-- Second `add_class` argument: name "ORDER" (a case-insensitive
duplicate) whose own attribute list repeats `dupAttr`. -/
def orderClassDupAttrs : UMLClass := ⟨"ORDER", [dupAttr, dupAttr], [], ⟨0, 0⟩, 1⟩


/-- First class of the merge-invariant witness: "Order" with one
attribute. -/
def mergeWitnessA : UMLClass := ⟨"Order", [⟨"id", "Integer", "+", false⟩], [], ⟨0, 0⟩, 1⟩

/-- Second class of the merge-invariant witness: the case-insensitive
duplicate "ORDER" with a different attribute. -/
def mergeWitnessB : UMLClass := ⟨"ORDER", [⟨"status", "String", "+", false⟩], [], ⟨0, 0⟩, 1⟩

/-! Helper lemmas about the list primitives. -/

theorem updateFirst_map_key {α β : Type} (p : α → Bool) (f : α → α) (key : α → β)
    (hf : ∀ x, p x = true → key (f x) = key x) :
    ∀ l : List α, (updateFirst p f l).map key = l.map key := by
  intro l
  induction l with
  | nil => rfl
  | cons x xs ih =>
    by_cases hx : p x = true
    · simp [updateFirst, hx, hf x hx]
    · simp [updateFirst, hx, ih]

theorem removeFirst_sublist {α : Type} (p : α → Bool) :
    ∀ l : List α, (removeFirst p l).Sublist l := by
  intro l
  induction l with
  | nil => simp [removeFirst]
  | cons x xs ih =>
    by_cases hx : p x = true
    · simpa [removeFirst, hx] using List.sublist_cons_self x xs
    · simpa [removeFirst, hx] using List.Sublist.cons₂ x ih

theorem exists_split_of_any {α : Type} (p : α → Bool) :
    ∀ l : List α, l.any p = true →
      ∃ l₁ x l₂, l = l₁ ++ x :: l₂ ∧ (∀ z ∈ l₁, p z = false) ∧ p x = true ∧
        ∀ f : α → α, updateFirst p f l = l₁ ++ f x :: l₂ := by
  intro l
  induction l with
  | nil => simp
  | cons a as ih =>
    intro h
    by_cases ha : p a = true
    · exact ⟨[], a, as, by simp, by simp, ha, fun f => by simp [updateFirst, ha]⟩
    · have has : as.any p = true := by
        simp only [List.any_cons, ha, Bool.false_or] at h
        exact h
      obtain ⟨l₁, x, l₂, heq, hnone, hx, hupd⟩ := ih has
      refine ⟨a :: l₁, x, l₂, by simp [heq], ?_, hx, fun f => ?_⟩
      · intro z hz
        rcases List.mem_cons.mp hz with rfl | hz
        · simpa using ha
        · exact hnone z hz
      · simp [updateFirst, ha, hupd f]

theorem mem_pyInsert {α : Type} (le : α → α → Bool) (x : α) :
    ∀ l : List α, ∀ z, z ∈ pyInsert le x l ↔ z = x ∨ z ∈ l := by
  intro l
  induction l with
  | nil => simp [pyInsert]
  | cons y ys ih =>
    intro z
    simp only [pyInsert]
    by_cases hy : le y x = true
    · rw [if_pos hy]
      simp only [List.mem_cons, ih z]
      tauto
    · rw [if_neg hy]
      simp only [List.mem_cons]

theorem pairwise_pyInsert {α : Type} (le : α → α → Bool)
    (htot : ∀ a b, le a b = true ∨ le b a = true)
    (htrans : ∀ a b c, le a b = true → le b c = true → le a c = true) (x : α) :
    ∀ l : List α, l.Pairwise (fun a b => le a b = true) →
      (pyInsert le x l).Pairwise (fun a b => le a b = true) := by
  intro l
  induction l with
  | nil => simp [pyInsert]
  | cons y ys ih =>
    intro hp
    rw [List.pairwise_cons] at hp
    obtain ⟨hy_all, hys⟩ := hp
    simp only [pyInsert]
    by_cases hy : le y x = true
    · rw [if_pos hy]
      rw [List.pairwise_cons]
      refine ⟨?_, ih hys⟩
      intro z hz
      rcases (mem_pyInsert le x ys z).mp hz with rfl | hz
      · exact hy
      · exact hy_all z hz
    · have hxy : le x y = true := (htot x y).resolve_right (by simpa using hy)
      rw [if_neg hy]
      rw [List.pairwise_cons]
      refine ⟨?_, List.pairwise_cons.mpr ⟨hy_all, hys⟩⟩
      intro z hz
      rcases List.mem_cons.mp hz with rfl | hz
      · exact hxy
      · exact htrans x y z hxy (hy_all z hz)

theorem pairwise_pySortAux {α : Type} (le : α → α → Bool)
    (htot : ∀ a b, le a b = true ∨ le b a = true)
    (htrans : ∀ a b c, le a b = true → le b c = true → le a c = true) :
    ∀ (l acc : List α), acc.Pairwise (fun a b => le a b = true) →
      (l.foldl (fun acc x => pyInsert le x acc) acc).Pairwise (fun a b => le a b = true) := by
  intro l
  induction l with
  | nil => intro acc h; simpa using h
  | cons x xs ih =>
    intro acc h
    exact ih (pyInsert le x acc) (pairwise_pyInsert le htot htrans x acc h)

theorem pairwise_pySort {α : Type} (le : α → α → Bool)
    (htot : ∀ a b, le a b = true ∨ le b a = true)
    (htrans : ∀ a b c, le a b = true → le b c = true → le a c = true)
    (l : List α) : (pySort le l).Pairwise (fun a b => le a b = true) :=
  pairwise_pySortAux le htot htrans l [] (by simp)

theorem mem_pySortAux {α : Type} (le : α → α → Bool) :
    ∀ (l acc : List α) (z : α), z ∈ l.foldl (fun acc x => pyInsert le x acc) acc →
      z ∈ acc ∨ z ∈ l := by
  intro l
  induction l with
  | nil => intro acc z h; exact Or.inl h
  | cons x xs ih =>
    intro acc z h
    rcases ih (pyInsert le x acc) z h with h1 | h1
    · rcases (mem_pyInsert le x acc z).mp h1 with rfl | h2
      · exact Or.inr (List.mem_cons_self z xs)
      · exact Or.inl h2
    · exact Or.inr (List.mem_cons_of_mem x h1)

theorem mem_of_mem_pySort {α : Type} (le : α → α → Bool) (l : List α) (z : α)
    (h : z ∈ pySort le l) : z ∈ l := by
  rcases mem_pySortAux le l [] z h with h1 | h1
  · simp at h1
  · exact h1

/-! Uniqueness-invariant preservation for the mutation API. -/

theorem find_class_none_iff (m : UMLModel) (name : String) :
    m.find_class name = none ↔ ∀ cls ∈ m.classes, pyLower cls.name ≠ pyLower name := by
  unfold UMLModel.find_class
  rw [List.find?_eq_none]
  constructor
  · intro h cls hc
    have := h cls hc
    simpa using this
  · intro h cls hc
    simpa using h cls hc

theorem find_relationship_none_iff (m : UMLModel) (source target : String) :
    m.find_relationship source target = none ↔
      ∀ rel ∈ m.relationships,
        ¬(pyLower rel.source = pyLower source ∧ pyLower rel.target = pyLower target) := by
  unfold UMLModel.find_relationship
  rw [List.find?_eq_none]
  constructor
  · intro h rel hr
    have := h rel hr
    simpa using this
  · intro h rel hr
    simpa using h rel hr

theorem invariant_empty : UMLModel.empty.Invariant := by
  constructor <;> simp [UMLModel.empty, ClassesUnique, RelationshipsUnique]

theorem add_class_relationships (m : UMLModel) (c : UMLClass) :
    (m.add_class c).relationships = m.relationships := by
  unfold UMLModel.add_class
  cases m.find_class c.name <;> rfl

theorem add_relationship_classes (m : UMLModel) (r : UMLRelationship) :
    (m.add_relationship r).classes = m.classes := by
  unfold UMLModel.add_relationship
  cases m.find_relationship r.source r.target <;> rfl

theorem add_class_classKeys (m : UMLModel) (c : UMLClass) (h : ClassesUnique m) :
    ClassesUnique (m.add_class c) := by
  unfold UMLModel.add_class
  cases hf : m.find_class c.name with
  | some cls0 =>
    unfold ClassesUnique at h ⊢
    simp only
    have hkey := updateFirst_map_key (fun cls => pyLower cls.name == pyLower c.name)
      (fun cls => mergeClassInto cls c) classKey (fun x _ => rfl) m.classes
    rw [hkey]
    exact h
  | none =>
    unfold ClassesUnique at h ⊢
    simp only [List.map_append, List.map_cons, List.map_nil]
    rw [List.nodup_append]
    refine ⟨h, by simp, ?_⟩
    intro k hk hk'
    simp only [List.mem_singleton] at hk'
    subst hk'
    rw [List.mem_map] at hk
    obtain ⟨cls, hcls, hkey⟩ := hk
    have := (find_class_none_iff m c.name).mp hf cls hcls
    exact this (by simpa [classKey] using hkey)

theorem add_relationship_relKeys (m : UMLModel) (r : UMLRelationship)
    (h : RelationshipsUnique m) : RelationshipsUnique (m.add_relationship r) := by
  unfold UMLModel.add_relationship
  cases hf : m.find_relationship r.source r.target with
  | some rel0 =>
    unfold RelationshipsUnique at h ⊢
    simp only
    have hkey := updateFirst_map_key
      (fun rel => pyLower rel.source == pyLower r.source && pyLower rel.target == pyLower r.target)
      (fun rel => { rel with type := r.type, confidence := r.confidence })
      relKey (fun x _ => rfl) m.relationships
    rw [hkey]
    exact h
  | none =>
    unfold RelationshipsUnique at h ⊢
    simp only [List.map_append, List.map_cons, List.map_nil]
    rw [List.nodup_append]
    refine ⟨h, by simp, ?_⟩
    intro k hk hk'
    simp only [List.mem_singleton] at hk'
    subst hk'
    rw [List.mem_map] at hk
    obtain ⟨rel, hrel, hkey⟩ := hk
    have := (find_relationship_none_iff m r.source r.target).mp hf rel hrel
    refine this ?_
    have h1 := congrArg Prod.fst hkey
    have h2 := congrArg Prod.snd hkey
    simp only [relKey] at h1 h2
    exact ⟨h1, h2⟩

theorem invariant_add_class (m : UMLModel) (c : UMLClass) (h : m.Invariant) :
    (m.add_class c).Invariant := by
  refine ⟨add_class_classKeys m c h.1, ?_⟩
  unfold RelationshipsUnique
  rw [add_class_relationships]
  exact h.2

theorem invariant_add_relationship (m : UMLModel) (r : UMLRelationship) (h : m.Invariant) :
    (m.add_relationship r).Invariant := by
  refine ⟨?_, add_relationship_relKeys m r h.2⟩
  unfold ClassesUnique
  rw [add_relationship_classes]
  exact h.1

theorem invariant_remove_class (m : UMLModel) (name : String) (h : m.Invariant) :
    (m.remove_class name).1.Invariant := by
  unfold UMLModel.remove_class
  cases m.find_class name with
  | some cls0 =>
    refine ⟨?_, ?_⟩
    · exact List.Nodup.sublist (List.Sublist.map classKey (removeFirst_sublist _ m.classes)) h.1
    · exact List.Nodup.sublist (List.Sublist.map relKey (List.filter_sublist m.relationships)) h.2
  | none => exact h

theorem invariant_remove_relationship (m : UMLModel) (source target : String)
    (h : m.Invariant) : (m.remove_relationship source target).1.Invariant := by
  unfold UMLModel.remove_relationship
  cases m.find_relationship source target with
  | some rel0 =>
    refine ⟨h.1, ?_⟩
    exact List.Nodup.sublist (List.Sublist.map relKey (removeFirst_sublist _ m.relationships)) h.2
  | none => exact h

theorem invariant_applyOp (m : UMLModel) (op : ModelOp) (h : m.Invariant) :
    (applyOp m op).Invariant := by
  cases op with
  | addClass c => exact invariant_add_class m c h
  | addRelationship r => exact invariant_add_relationship m r h
  | removeClass name => exact invariant_remove_class m name h
  | removeRelationship s t => exact invariant_remove_relationship m s t h

theorem invariant_applyOps : ∀ (ops : List ModelOp) (m : UMLModel), m.Invariant →
    (applyOps m ops).Invariant := by
  intro ops
  induction ops with
  | nil => intro m h; exact h
  | cons op rest ih =>
    intro m h
    exact ih (applyOp m op) (invariant_applyOp m op h)

theorem invariant_addClassDicts : ∀ (cds : List ClassDict) (m : UMLModel), m.Invariant →
    (cds.foldl (fun m cd => m.add_class (classOfDict cd)) m).Invariant := by
  intro cds
  induction cds with
  | nil => intro m h; exact h
  | cons cd rest ih =>
    intro m h
    exact ih (m.add_class (classOfDict cd)) (invariant_add_class m (classOfDict cd) h)

theorem invariant_addRelationshipsFromDicts : ∀ (rds : List RelationshipDict) (m : UMLModel),
    m.Invariant → ((addRelationshipsFromDicts m rds).getD UMLModel.empty).Invariant := by
  intro rds
  induction rds with
  | nil => intro m h; exact h
  | cons rd rest ih =>
    intro m h
    unfold addRelationshipsFromDicts
    cases relationshipTypeOfValue rd.type with
    | some t =>
      exact ih (m.add_relationship (relationshipOfDict rd t))
        (invariant_add_relationship m (relationshipOfDict rd t) h)
    | none => exact invariant_empty

theorem invariant_from_dict (d : ModelDict) :
    ((UMLModel.from_dict d).getD UMLModel.empty).Invariant := by
  unfold UMLModel.from_dict
  exact invariant_addRelationshipsFromDicts d.relationships _
    (invariant_addClassDicts d.classes UMLModel.empty invariant_empty)

/-! Round-trip lemmas for serialization. -/

theorem attributes_of_dicts_id (l : List Attribute) :
    (l.map Attribute.to_dict).map
      (fun a => (⟨a.name, a.type, a.visibility, a.is_static⟩ : Attribute)) = l := by
  induction l with
  | nil => rfl
  | cons a as ih => simp only [List.map_cons, ih]; rfl

theorem methods_of_dicts_id (l : List Method) :
    (l.map Method.to_dict).map
      (fun mth => (⟨mth.name, mth.parameters, mth.return_type, mth.visibility,
                    mth.is_static⟩ : Method)) = l := by
  induction l with
  | nil => rfl
  | cons mth ms ih => simp only [List.map_cons, ih]; rfl

theorem classOfDict_to_dict (c : UMLClass) : classOfDict c.to_dict = c := by
  unfold classOfDict UMLClass.to_dict
  simp only [attributes_of_dicts_id, methods_of_dicts_id]

theorem relationshipTypeOfValue_value (t : RelationshipType) :
    relationshipTypeOfValue t.value = some t := by
  cases t <;> rfl

theorem relationshipOfDict_to_dict (r : UMLRelationship) :
    relationshipOfDict r.to_dict r.type = r := rfl

theorem foldl_add_class_append : ∀ (cs : List UMLClass) (m : UMLModel),
    ((m.classes ++ cs).map classKey).Nodup →
    cs.foldl UMLModel.add_class m =
      { classes := m.classes ++ cs, relationships := m.relationships } := by
  intro cs
  induction cs with
  | nil =>
    intro m _
    simp
  | cons c rest ih =>
    intro m h
    have hfind : m.find_class c.name = none := by
      rw [find_class_none_iff]
      intro cls hcls
      have hnd := h
      rw [List.map_append, List.nodup_append] at hnd
      have hdisj := hnd.2.2
      have hk : classKey cls ∈ m.classes.map classKey := List.mem_map_of_mem classKey hcls
      have hc : classKey c ∈ (c :: rest).map classKey := by simp
      intro heq
      have : classKey cls = classKey c := by simpa [classKey] using heq
      exact hdisj hk (this ▸ hc)
    have hstep : m.add_class c = { classes := m.classes ++ [c], relationships := m.relationships } := by
      unfold UMLModel.add_class
      rw [hfind]
    rw [List.foldl_cons, hstep]
    have h' : ((({ classes := m.classes ++ [c], relationships := m.relationships } : UMLModel).classes
        ++ rest).map classKey).Nodup := by
      simpa [List.append_assoc] using h
    rw [ih _ h']
    simp [List.append_assoc]

theorem addRels_to_dict_append : ∀ (rs : List UMLRelationship) (m : UMLModel),
    ((m.relationships ++ rs).map relKey).Nodup →
    addRelationshipsFromDicts m (rs.map UMLRelationship.to_dict) =
      .ok { classes := m.classes, relationships := m.relationships ++ rs } := by
  intro rs
  induction rs with
  | nil =>
    intro m _
    simp [addRelationshipsFromDicts]
  | cons r rest ih =>
    intro m h
    have hfind : m.find_relationship r.source r.target = none := by
      rw [find_relationship_none_iff]
      intro rel hrel
      have hnd := h
      rw [List.map_append, List.nodup_append] at hnd
      have hdisj := hnd.2.2
      have hk : relKey rel ∈ m.relationships.map relKey := List.mem_map_of_mem relKey hrel
      have hr : relKey r ∈ (r :: rest).map relKey := by simp
      intro heq
      have : relKey rel = relKey r := by
        simp only [relKey, Prod.mk.injEq]
        exact ⟨heq.1, heq.2⟩
      exact hdisj hk (this ▸ hr)
    have hstep : m.add_relationship r =
        { classes := m.classes, relationships := m.relationships ++ [r] } := by
      unfold UMLModel.add_relationship
      rw [hfind]
    have htype : (UMLRelationship.to_dict r).type = r.type.value := rfl
    simp only [List.map_cons, addRelationshipsFromDicts, htype, relationshipTypeOfValue_value,
      relationshipOfDict_to_dict, hstep]
    have h' : ((({ classes := m.classes, relationships := m.relationships ++ [r] } : UMLModel).relationships
        ++ rest).map relKey).Nodup := by
      simpa [List.append_assoc] using h
    rw [ih _ h']
    simp [List.append_assoc]

theorem from_dict_to_dict (m : UMLModel) (h : m.Invariant) :
    UMLModel.from_dict m.to_dict = .ok m := by
  unfold UMLModel.from_dict UMLModel.to_dict
  simp only
  rw [List.foldl_map]
  have hfun : (fun (acc : UMLModel) (c : UMLClass) => acc.add_class (classOfDict c.to_dict))
      = fun acc c => acc.add_class c := by
    funext acc c
    rw [classOfDict_to_dict]
  rw [hfun]
  have hfold : List.foldl (fun (acc : UMLModel) (c : UMLClass) => acc.add_class c)
      UMLModel.empty m.classes = { classes := m.classes, relationships := [] } := by
    have h2 := foldl_add_class_append m.classes UMLModel.empty
      (by simpa [UMLModel.empty] using h.1)
    simpa [UMLModel.empty] using h2
  rw [hfold]
  have hrels := addRels_to_dict_append m.relationships
    ⟨m.classes, []⟩ (by simpa using h.2)
  simpa using hrels

/-! Order lemmas for the post-processing sort. -/

theorem char_eq_of_not_lt {a b : Char} (h1 : ¬charLt a b = true) (h2 : ¬charLt b a = true) :
    a = b := by
  have h1' : ¬ a.val.toNat < b.val.toNat := by simpa [charLt, Char.toNat] using h1
  have h2' : ¬ b.val.toNat < a.val.toNat := by simpa [charLt, Char.toNat] using h2
  exact Char.eq_of_val_eq (UInt32.ext (by omega))

theorem charListLe_total : ∀ x y : List Char, charListLe x y = true ∨ charListLe y x = true := by
  intro x
  induction x with
  | nil => intro y; left; rfl
  | cons a as ih =>
    intro y
    cases y with
    | nil => right; rfl
    | cons b bs =>
      simp only [charListLe]
      by_cases hab : charLt a b = true
      · left; rw [if_pos hab]
      · by_cases hba : charLt b a = true
        · right; rw [if_pos hba]
        · have hEq : a = b := char_eq_of_not_lt hab hba
          subst hEq
          simp only [if_neg hab]
          exact ih bs

theorem charListLe_trans :
    ∀ x y z : List Char, charListLe x y = true → charListLe y z = true →
      charListLe x z = true := by
  intro x
  induction x with
  | nil => intro y z _ _; rfl
  | cons a as ih =>
    intro y z hxy hyz
    cases y with
    | nil => simp [charListLe] at hxy
    | cons b bs =>
      cases z with
      | nil => simp [charListLe] at hyz
      | cons c cs =>
        simp only [charListLe] at hxy hyz ⊢
        by_cases h1 : charLt a b = true
        · by_cases h2 : charLt b c = true
          · have hac : charLt a c = true := by
              simp only [charLt, decide_eq_true_eq] at h1 h2 ⊢
              omega
            rw [if_pos hac]
          · by_cases h3 : charLt c b = true
            · rw [if_neg h2, if_pos h3] at hyz
              exact absurd hyz (by simp)
            · have hEq : b = c := char_eq_of_not_lt h2 h3
              subst hEq
              rw [if_pos h1]
        · by_cases h1' : charLt b a = true
          · rw [if_neg h1, if_pos h1'] at hxy
            exact absurd hxy (by simp)
          · have hEq : a = b := char_eq_of_not_lt h1 h1'
            subst hEq
            simp only [if_neg h1] at hxy
            by_cases h2 : charLt a c = true
            · rw [if_pos h2]
            · by_cases h3 : charLt c a = true
              · rw [if_neg h2, if_pos h3] at hyz
                exact absurd hyz (by simp)
              · have hEq2 : a = c := char_eq_of_not_lt h2 h3
                subst hEq2
                simp only [if_neg h2] at hyz ⊢
                exact ih bs cs hxy hyz

theorem charListLt_trans :
    ∀ x y z : List Char, charListLt x y = true → charListLt y z = true →
      charListLt x z = true := by
  intro x
  induction x with
  | nil =>
    intro y z hxy hyz
    cases y with
    | nil => simp [charListLt] at hxy
    | cons b bs =>
      cases z with
      | nil => simp [charListLt] at hyz
      | cons c cs => rfl
  | cons a as ih =>
    intro y z hxy hyz
    cases y with
    | nil => simp [charListLt] at hxy
    | cons b bs =>
      cases z with
      | nil => simp [charListLt] at hyz
      | cons c cs =>
        simp only [charListLt] at hxy hyz ⊢
        by_cases h1 : charLt a b = true
        · by_cases h2 : charLt b c = true
          · have hac : charLt a c = true := by
              simp only [charLt, decide_eq_true_eq] at h1 h2 ⊢
              omega
            rw [if_pos hac]
          · by_cases h3 : charLt c b = true
            · rw [if_neg h2, if_pos h3] at hyz
              exact absurd hyz (by simp)
            · have hEq : b = c := char_eq_of_not_lt h2 h3
              subst hEq
              rw [if_pos h1]
        · by_cases h1' : charLt b a = true
          · rw [if_neg h1, if_pos h1'] at hxy
            exact absurd hxy (by simp)
          · have hEq : a = b := char_eq_of_not_lt h1 h1'
            subst hEq
            simp only [if_neg h1] at hxy
            by_cases h2 : charLt a c = true
            · rw [if_pos h2]
            · by_cases h3 : charLt c a = true
              · rw [if_neg h2, if_pos h3] at hyz
                exact absurd hyz (by simp)
              · have hEq2 : a = c := char_eq_of_not_lt h2 h3
                subst hEq2
                simp only [if_neg h2] at hyz ⊢
                exact ih bs cs hxy hyz

theorem charListLt_trichotomy :
    ∀ x y : List Char, charListLt x y = true ∨ x = y ∨ charListLt y x = true := by
  intro x
  induction x with
  | nil =>
    intro y
    cases y with
    | nil => right; left; rfl
    | cons b bs => left; rfl
  | cons a as ih =>
    intro y
    cases y with
    | nil => right; right; rfl
    | cons b bs =>
      simp only [charListLt]
      by_cases hab : charLt a b = true
      · left; rw [if_pos hab]
      · by_cases hba : charLt b a = true
        · right; right; rw [if_pos hba]
        · have hEq : a = b := char_eq_of_not_lt hab hba
          subst hEq
          simp only [if_neg hab]
          rcases ih bs with h | h | h
          · left; exact h
          · right; left; rw [h]
          · right; right; exact h

theorem classSortLe_total (a b : UMLClass) :
    classSortLe a b = true ∨ classSortLe b a = true :=
  charListLe_total _ _

theorem classSortLe_trans (a b c : UMLClass) (h1 : classSortLe a b = true)
    (h2 : classSortLe b c = true) : classSortLe a c = true :=
  charListLe_trans _ _ _ h1 h2

theorem relSortLe_total (a b : UMLRelationship) :
    relSortLe a b = true ∨ relSortLe b a = true := by
  unfold relSortLe
  rcases charListLt_trichotomy (pyLower a.source).data (pyLower b.source).data with h | h | h
  · left; simp [h]
  · rcases charListLe_total (pyLower a.target).data (pyLower b.target).data with h2 | h2
    · left; simp [h, h2]
    · right; simp [← h, h2]
  · right; simp [h]

theorem relSortLe_trans (a b c : UMLRelationship) (h1 : relSortLe a b = true)
    (h2 : relSortLe b c = true) : relSortLe a c = true := by
  unfold relSortLe at h1 h2 ⊢
  rw [Bool.or_eq_true] at h1 h2
  rcases h1 with h1 | h1 <;> rcases h2 with h2 | h2
  · rw [Bool.or_eq_true]
    exact Or.inl (charListLt_trans _ _ _ h1 h2)
  · rw [Bool.and_eq_true] at h2
    have heq : (pyLower b.source).data = (pyLower c.source).data := by
      simpa using h2.1
    rw [heq] at h1
    rw [Bool.or_eq_true]
    exact Or.inl h1
  · rw [Bool.and_eq_true] at h1
    have heq : (pyLower a.source).data = (pyLower b.source).data := by
      simpa using h1.1
    rw [← heq] at h2
    rw [Bool.or_eq_true]
    exact Or.inl h2
  · rw [Bool.and_eq_true] at h1 h2
    have heq1 : (pyLower a.source).data = (pyLower b.source).data := by
      simpa using h1.1
    have heq2 : (pyLower b.source).data = (pyLower c.source).data := by
      simpa using h2.1
    rw [Bool.or_eq_true]
    refine Or.inr ?_
    rw [Bool.and_eq_true]
    refine ⟨by simpa using heq1.trans heq2, charListLe_trans _ _ _ h1.2 h2.2⟩

/-! Lemmas about key-based deduplication. -/

theorem dedupByKey_sublist {α : Type} (key : α → String) :
    ∀ (l : List α) (seen : List String), (dedupByKey key seen l).Sublist l := by
  intro l
  induction l with
  | nil => intro seen; simp [dedupByKey]
  | cons x xs ih =>
    intro seen
    by_cases hx : key x ∈ seen
    · have heq : dedupByKey key seen (x :: xs) = dedupByKey key seen xs := by
        simp [dedupByKey, hx]
      rw [heq]
      exact List.Sublist.trans (ih seen) (List.sublist_cons_self x xs)
    · have heq : dedupByKey key seen (x :: xs) = x :: dedupByKey key (key x :: seen) xs := by
        simp [dedupByKey, hx]
      rw [heq]
      exact List.Sublist.cons₂ x (ih (key x :: seen))

theorem dedupByKey_keys {α : Type} (key : α → String) :
    ∀ (l : List α) (seen : List String),
      ((dedupByKey key seen l).map key).Nodup ∧
      ∀ k ∈ (dedupByKey key seen l).map key, k ∉ seen := by
  intro l
  induction l with
  | nil => intro seen; simp [dedupByKey]
  | cons x xs ih =>
    intro seen
    by_cases hx : key x ∈ seen
    · have heq : dedupByKey key seen (x :: xs) = dedupByKey key seen xs := by
        simp [dedupByKey, hx]
      rw [heq]
      exact ih seen
    · have heq : dedupByKey key seen (x :: xs) = x :: dedupByKey key (key x :: seen) xs := by
        simp [dedupByKey, hx]
      rw [heq]
      obtain ⟨ihnd, ihseen⟩ := ih (key x :: seen)
      constructor
      · rw [List.map_cons, List.nodup_cons]
        refine ⟨fun hmem => ?_, ihnd⟩
        have := ihseen (key x) hmem
        simp at this
      · intro k hk
        rw [List.map_cons] at hk
        rcases List.mem_cons.mp hk with rfl | hk
        · exact hx
        · have := ihseen k hk
          intro hkseen
          exact this (List.mem_cons_of_mem _ hkseen)

/-! Invariant of the duplicate-entity merge. -/

theorem chosenFrom_append_of_ne (p : List NLPEntity) (x e : NLPEntity)
    (hch : ChosenFrom p x) (hne : entityKey e ≠ entityKey x) :
    ChosenFrom (p ++ [e]) x := by
  obtain ⟨l, r, rfl, hl, hr⟩ := hch
  refine ⟨l, r ++ [e], by simp, hl, ?_⟩
  intro y hy hkey
  rcases List.mem_append.mp hy with hy | hy
  · exact hr y hy hkey
  · simp only [List.mem_singleton] at hy
    subst hy
    exact absurd hkey hne

theorem nodup_keys_split {l₁ l₂ : List NLPEntity} {x₀ : NLPEntity}
    (h : ((l₁ ++ x₀ :: l₂).map entityKey).Nodup) :
    ∀ z, (z ∈ l₁ ∨ z ∈ l₂) → entityKey z ≠ entityKey x₀ := by
  intro z hz heq
  rw [List.map_append, List.map_cons, List.nodup_append] at h
  rcases hz with hz | hz
  · exact h.2.2 (List.mem_map_of_mem entityKey hz) (by simp [heq])
  · have h2 := h.2.1
    rw [List.nodup_cons] at h2
    exact h2.1 (heq ▸ List.mem_map_of_mem entityKey hz)

theorem mergeStep_inv (p acc : List NLPEntity) (e : NLPEntity) (h : MergeInv p acc) :
    MergeInv (p ++ [e]) (mergeEntityStep acc e) := by
  obtain ⟨⟨hnd, hch⟩, hcov⟩ := h
  unfold mergeEntityStep
  by_cases hany : acc.any (fun x => entityKey x == entityKey e) = true
  · rw [if_pos hany]
    obtain ⟨l₁, x₀, l₂, hacc, hl₁none, hx₀match, hupd⟩ :=
      exists_split_of_any (fun x => entityKey x == entityKey e) acc hany
    have hkey0 : entityKey x₀ = entityKey e := by simpa using hx₀match
    have hx₀acc : x₀ ∈ acc := by rw [hacc]; simp
    have hothers : ∀ z, (z ∈ l₁ ∨ z ∈ l₂) → entityKey z ≠ entityKey x₀ :=
      nodup_keys_split (hacc ▸ hnd)
    obtain ⟨lp, rp, hp, hlp, hrp⟩ := hch x₀ hx₀acc
    rw [hupd]
    by_cases hconf : e.confidence > x₀.confidence
    · -- the incoming entity overwrites the slot
      simp only [if_pos hconf]
      refine ⟨⟨?_, ?_⟩, ?_⟩
      · -- keys unchanged up to the equal key of the slot
        have hkeys : (l₁ ++ e :: l₂).map entityKey = (l₁ ++ x₀ :: l₂).map entityKey := by
          simp [hkey0]
        rw [hkeys]
        exact hacc ▸ hnd
      · intro x hx
        rcases List.mem_append.mp hx with hx | hx
        · exact chosenFrom_append_of_ne p x e (hch x (by rw [hacc]; simp [hx]))
            (fun hcontra => hothers x (Or.inl hx) (hcontra.symm.trans hkey0.symm))
        · rcases List.mem_cons.mp hx with hxe | hx
          · -- the new occupant: every earlier same-key entity is strictly weaker
            subst hxe
            refine ⟨p, [], by simp, ?_, by simp⟩
            intro y hy hykey
            have hykey0 : entityKey y = entityKey x₀ := hykey.trans hkey0.symm
            rw [hp] at hy
            rcases List.mem_append.mp hy with hy | hy
            · exact lt_trans (hlp y hy hykey0) hconf
            · rcases List.mem_cons.mp hy with hyx | hy
              · subst hyx; exact hconf
              · exact lt_of_le_of_lt (hrp y hy hykey0) hconf
          · exact chosenFrom_append_of_ne p x e (hch x (by rw [hacc]; simp [hx]))
              (fun hcontra => hothers x (Or.inr hx) (hcontra.symm.trans hkey0.symm))
      · intro y hy
        rcases List.mem_append.mp hy with hy | hy
        · obtain ⟨x, hxacc, hxkey⟩ := hcov y hy
          rw [hacc] at hxacc
          rcases List.mem_append.mp hxacc with hx | hx
          · exact ⟨x, by simp [hx], hxkey⟩
          · rcases List.mem_cons.mp hx with hxx | hx
            · subst hxx
              exact ⟨e, by simp, hkey0.symm.trans hxkey⟩
            · exact ⟨x, by simp [hx], hxkey⟩
        · simp only [List.mem_singleton] at hy
          exact ⟨e, by simp, by rw [hy]⟩
    · -- tie or weaker: the existing slot is kept
      simp only [if_neg hconf]
      refine ⟨⟨?_, ?_⟩, ?_⟩
      · exact hacc ▸ hnd
      · intro x hx
        rcases List.mem_append.mp hx with hx | hx
        · exact chosenFrom_append_of_ne p x e (hch x (by rw [hacc]; simp [hx]))
            (fun hcontra => hothers x (Or.inl hx) (hcontra.symm.trans hkey0.symm))
        · rcases List.mem_cons.mp hx with hxx | hx
          · -- the kept occupant also dominates the incoming entity
            subst hxx
            refine ⟨lp, rp ++ [e], by rw [hp]; simp, hlp, ?_⟩
            intro y hy hykey
            rcases List.mem_append.mp hy with hy | hy
            · exact hrp y hy hykey
            · simp only [List.mem_singleton] at hy
              subst hy
              exact le_of_not_lt hconf
          · exact chosenFrom_append_of_ne p x e (hch x (by rw [hacc]; simp [hx]))
              (fun hcontra => hothers x (Or.inr hx) (hcontra.symm.trans hkey0.symm))
      · intro y hy
        rcases List.mem_append.mp hy with hy | hy
        · obtain ⟨x, hxacc, hxkey⟩ := hcov y hy
          exact ⟨x, hacc ▸ hxacc, hxkey⟩
        · simp only [List.mem_singleton] at hy
          exact ⟨x₀, by simp, by rw [hy]; exact hkey0⟩
  · rw [if_neg hany]
    have hnot : ∀ x ∈ acc, entityKey x ≠ entityKey e := by
      intro x hx heq
      rw [List.any_eq_true] at hany
      exact hany ⟨x, hx, by simpa using heq⟩
    refine ⟨⟨?_, ?_⟩, ?_⟩
    · rw [List.map_append, List.nodup_append]
      refine ⟨hnd, by simp, ?_⟩
      intro k hk hk'
      simp only [List.map_cons, List.map_nil, List.mem_singleton] at hk'
      subst hk'
      rw [List.mem_map] at hk
      obtain ⟨x, hx, hxk⟩ := hk
      exact hnot x hx hxk
    · intro x hx
      rcases List.mem_append.mp hx with hx | hx
      · exact chosenFrom_append_of_ne p x e (hch x hx) (fun hcontra => hnot x hx hcontra.symm)
      · simp only [List.mem_singleton] at hx
        subst hx
        refine ⟨p, [], by simp, ?_, by simp⟩
        intro y hy hykey
        obtain ⟨z, hzacc, hzkey⟩ := hcov y hy
        exact absurd (hzkey.trans hykey) (hnot z hzacc)
    · intro y hy
      rcases List.mem_append.mp hy with hy | hy
      · obtain ⟨x, hxacc, hxkey⟩ := hcov y hy
        exact ⟨x, by simp [hxacc], hxkey⟩
      · simp only [List.mem_singleton] at hy
        exact ⟨e, by simp, by rw [hy]⟩

theorem mergeDupAux_inv : ∀ (es p acc : List NLPEntity), MergeInv p acc →
    MergeInv (p ++ es) (mergeDupAux acc es) := by
  intro es
  induction es with
  | nil => intro p acc h; simpa using h
  | cons e rest ih =>
    intro p acc h
    have h2 := ih (p ++ [e]) (mergeEntityStep acc e) (mergeStep_inv p acc e h)
    rw [show (p ++ [e]) ++ rest = p ++ e :: rest by simp] at h2
    exact h2

theorem merge_duplicate_entities_inv (es : List NLPEntity) :
    MergeInv es (merge_duplicate_entities es) := by
  have h := mergeDupAux_inv es [] [] ⟨⟨by simp, by simp⟩, by simp⟩
  simpa [merge_duplicate_entities] using h

/-! Merge lemmas for `add_class` on case-insensitive duplicate names. -/

theorem mergeClassInto_name (existing incoming : UMLClass) :
    (mergeClassInto existing incoming).name = existing.name := rfl

theorem mem_mergeClassInto_attributes (existing incoming : UMLClass) (a : Attribute) :
    a ∈ (mergeClassInto existing incoming).attributes ↔
      a ∈ existing.attributes ∨ a ∈ incoming.attributes := by
  unfold mergeClassInto
  simp only [List.mem_append, List.mem_filter, decide_eq_true_eq]
  constructor
  · rintro (h | ⟨h, _⟩)
    · exact Or.inl h
    · exact Or.inr h
  · rintro (h | h)
    · exact Or.inl h
    · by_cases hmem : a ∈ existing.attributes
      · exact Or.inl hmem
      · exact Or.inr ⟨h, hmem⟩

theorem mem_mergeClassInto_methods (existing incoming : UMLClass) (mth : Method) :
    mth ∈ (mergeClassInto existing incoming).methods ↔
      mth ∈ existing.methods ∨ mth ∈ incoming.methods := by
  unfold mergeClassInto
  simp only [List.mem_append, List.mem_filter, decide_eq_true_eq]
  constructor
  · rintro (h | ⟨h, _⟩)
    · exact Or.inl h
    · exact Or.inr h
  · rintro (h | h)
    · exact Or.inl h
    · by_cases hmem : mth ∈ existing.methods
      · exact Or.inl hmem
      · exact Or.inr ⟨h, hmem⟩

theorem nodup_mergeClassInto_attributes (existing incoming : UMLClass)
    (h1 : existing.attributes.Nodup) (h2 : incoming.attributes.Nodup) :
    (mergeClassInto existing incoming).attributes.Nodup := by
  unfold mergeClassInto
  simp only
  rw [List.nodup_append]
  refine ⟨h1, List.Nodup.filter _ h2, ?_⟩
  intro a ha ha'
  rw [List.mem_filter] at ha'
  have h3 := ha'.2
  simp only [decide_eq_true_eq] at h3
  exact h3 ha

theorem nodup_mergeClassInto_methods (existing incoming : UMLClass)
    (h1 : existing.methods.Nodup) (h2 : incoming.methods.Nodup) :
    (mergeClassInto existing incoming).methods.Nodup := by
  unfold mergeClassInto
  simp only
  rw [List.nodup_append]
  refine ⟨h1, List.Nodup.filter _ h2, ?_⟩
  intro mth hm hm'
  rw [List.mem_filter] at hm'
  have h3 := hm'.2
  simp only [decide_eq_true_eq] at h3
  exact h3 hm

theorem add_class_singleton_merge (u : UMLClass) (rels : List UMLRelationship)
    (c : UMLClass) (hname : pyLower c.name = pyLower u.name) :
    (UMLModel.mk [u] rels).add_class c = ⟨[mergeClassInto u c], rels⟩ := by
  unfold UMLModel.add_class UMLModel.find_class
  have hpred : (pyLower u.name == pyLower c.name) = true := by
    simp [hname]
  simp [List.find?, hpred, updateFirst]

theorem add_class_dups_aux : ∀ (cs : List UMLClass) (u : UMLClass)
    (rels : List UMLRelationship),
    (∀ c' ∈ cs, pyLower c'.name = pyLower u.name) →
    u.attributes.Nodup → u.methods.Nodup →
    (∀ c' ∈ cs, c'.attributes.Nodup) → (∀ c' ∈ cs, c'.methods.Nodup) →
    ∃ u', (cs.foldl UMLModel.add_class ⟨[u], rels⟩).classes = [u'] ∧
      u'.name = u.name ∧ u'.attributes.Nodup ∧ u'.methods.Nodup ∧
      (∀ a : Attribute, a ∈ u'.attributes ↔ a ∈ u.attributes ∨ ∃ c' ∈ cs, a ∈ c'.attributes) ∧
      (∀ mth : Method, mth ∈ u'.methods ↔ mth ∈ u.methods ∨ ∃ c' ∈ cs, mth ∈ c'.methods) := by
  intro cs
  induction cs with
  | nil =>
    intro u rels _ hua hum _ _
    exact ⟨u, rfl, rfl, hua, hum, by simp, by simp⟩
  | cons c rest ih =>
    intro u rels hnames hua hum hattrs hmeths
    rw [List.foldl_cons, add_class_singleton_merge u rels c (hnames c (by simp))]
    have hmerged_names : ∀ c' ∈ rest, pyLower c'.name = pyLower (mergeClassInto u c).name := by
      intro c' hc'
      rw [mergeClassInto_name]
      exact hnames c' (by simp [hc'])
    obtain ⟨u', hcls, hname, hna, hnm, hma, hmm⟩ :=
      ih (mergeClassInto u c) rels hmerged_names
        (nodup_mergeClassInto_attributes u c hua (hattrs c (by simp)))
        (nodup_mergeClassInto_methods u c hum (hmeths c (by simp)))
        (fun c' hc' => hattrs c' (by simp [hc']))
        (fun c' hc' => hmeths c' (by simp [hc']))
    refine ⟨u', hcls, hname.trans (mergeClassInto_name u c), hna, hnm, ?_, ?_⟩
    · intro a
      rw [hma a, mem_mergeClassInto_attributes]
      constructor
      · rintro ((h | h) | ⟨c', hc', h⟩)
        · exact Or.inl h
        · exact Or.inr ⟨c, by simp, h⟩
        · exact Or.inr ⟨c', by simp [hc'], h⟩
      · rintro (h | ⟨c', hc', h⟩)
        · exact Or.inl (Or.inl h)
        · rcases List.mem_cons.mp hc' with hcc | hc'
          · subst hcc
            exact Or.inl (Or.inr h)
          · exact Or.inr ⟨c', hc', h⟩
    · intro mth
      rw [hmm mth, mem_mergeClassInto_methods]
      constructor
      · rintro ((h | h) | ⟨c', hc', h⟩)
        · exact Or.inl h
        · exact Or.inr ⟨c, by simp, h⟩
        · exact Or.inr ⟨c', by simp [hc'], h⟩
      · rintro (h | ⟨c', hc', h⟩)
        · exact Or.inl (Or.inl h)
        · rcases List.mem_cons.mp hc' with hcc | hc'
          · subst hcc
            exact Or.inl (Or.inr h)
          · exact Or.inr ⟨c', hc', h⟩

/-! Lemmas for the extraction endpoint claim. -/

theorem preprocess_text_nonempty (t : String) (h : ¬ t = "") :
    preprocess_text t = .error "str.replace() takes no keyword arguments" := by
  unfold preprocess_text
  rw [if_neg h]
  rfl

theorem process_requirements_nonempty (t : String) (h : ¬ t = "") :
    process_requirements t =
      .error "NLP processing failed: str.replace() takes no keyword arguments" := by
  unfold process_requirements
  rw [preprocess_text_nonempty t h]
  rfl

/-! The claims. -/

/-- C1: a request whose stripped text has exactly 49 characters is
rejected with the `TEXT_TOO_SHORT` input-length error before the pipeline
runs. For every stripped text of length between 50 and 10000, however,
`process_requirements` does not return a model: its Stage-1 preprocessing
calls `str.replace(..., flags=re.IGNORECASE)`, which raises `TypeError`
in CPython, so the endpoint answers with a `PROCESSING_ERROR` response
instead. -/
theorem c1_extract_length_gate_and_pipeline_crash :
    (∀ t : String, (pyStrip t).length = 49 → extract_uml t = .textTooShort 49) ∧
    (∀ t : String, 50 ≤ (pyStrip t).length → (pyStrip t).length ≤ 10000 →
      extract_uml t =
        .processingError "NLP processing failed: str.replace() takes no keyword arguments") := by
  constructor
  · intro t h
    unfold extract_uml
    have hne : ¬ pyStrip t = "" := by
      intro he
      rw [he] at h
      exact absurd h (by decide)
    rw [if_neg hne, if_pos (by rw [h]; norm_num), h]
  · intro t h1 h2
    unfold extract_uml
    have hne : ¬ pyStrip t = "" := by
      intro he
      rw [he] at h1
      exact absurd h1 (by decide)
    rw [if_neg hne, if_neg (by omega), if_neg (by omega),
      process_requirements_nonempty (pyStrip t) hne]

/-- Witness for C1 at concrete inputs: 49 repetitions of 'a' are
rejected as too short; 50 repetitions reach the pipeline and surface the
`TypeError` as a processing error. -/
theorem c1_extract_witness :
    extract_uml (String.mk (List.replicate 49 'a')) = .textTooShort 49 ∧
    extract_uml (String.mk (List.replicate 50 'a')) =
      .processingError "NLP processing failed: str.replace() takes no keyword arguments" :=
  ⟨c1_extract_length_gate_and_pipeline_crash.1 _ (by decide),
   c1_extract_length_gate_and_pipeline_crash.2 _ (by decide) (by decide)⟩

/-- C2: on a diagram text with two opening braces and one closing brace,
the checks before the crash point do flag "Unbalanced braces in class
definitions" with `is_valid = false`, but `validate_mermaid_syntax`
itself never returns that report: it raises `NameError` because
`mermaid_converter.py` uses `re.search` without importing `re` (and the
module cannot even be imported, see the renderer module note). -/
theorem c2_validator_crashes_on_imbalanced_braces :
    (imbalancedDiagram.data.filter (fun c => c == '\x7b')).length = 2 ∧
    (imbalancedDiagram.data.filter (fun c => c == '\x7d')).length = 1 ∧
    validate_checks_before_crash imbalancedDiagram =
      ⟨false, ["Unbalanced braces in class definitions"], []⟩ ∧
    validate_mermaid_syntax imbalancedDiagram =
      .error "NameError: name \x27re\x27 is not defined" := by
  decide

/-- C3: every model reachable from the empty model by any finite
sequence of `add_class`, `add_relationship`, `remove_class` and
`remove_relationship` calls, and every model produced by `from_dict` on
well-formed wire data, has no two classes with the same case-insensitive
name and no two relationships with the same case-insensitive
(source, target) pair. -/
theorem c3_uniqueness_invariant :
    (∀ ops : List ModelOp, (applyOps UMLModel.empty ops).Invariant) ∧
    (∀ d : ModelDict, ((UMLModel.from_dict d).getD UMLModel.empty).Invariant) :=
  ⟨fun ops => invariant_applyOps ops UMLModel.empty invariant_empty,
   fun d => invariant_from_dict d⟩

/-- C4 counterexample: adding "Order" (no members) and then "ORDER"
whose own attribute list contains the same attribute twice produces one
class whose attribute list holds that attribute twice — not the union of
distinct attributes: the merge filter compares the incoming attributes
only against the attributes already stored, not against each other. -/
theorem c4_counterexample_duplicate_attribute_appended_twice :
    ((UMLModel.empty.add_class orderClassEmpty).add_class orderClassDupAttrs).classes.map
        (fun cls => cls.attributes) = [[dupAttr, dupAttr]] ∧
    ¬ ([dupAttr, dupAttr] : List Attribute).Nodup := by
  decide

/-- C4 (amended): for every sequence of `add_class` calls on classes with
pairwise case-insensitively equal names *whose own attribute and method
lists are duplicate-free*, the resulting model has exactly one class,
named as the first class added, whose attribute and method lists are
duplicate-free and contain exactly the attributes/methods occurring in
some added class. -/
theorem c4_amended_merge_union (c : UMLClass) (cs : List UMLClass)
    (hnames : ∀ c' ∈ cs, pyLower c'.name = pyLower c.name)
    (hattrs : ∀ c' ∈ c :: cs, c'.attributes.Nodup)
    (hmeths : ∀ c' ∈ c :: cs, c'.methods.Nodup) :
    ∃ u, ((c :: cs).foldl UMLModel.add_class UMLModel.empty).classes = [u] ∧
      u.name = c.name ∧ u.attributes.Nodup ∧ u.methods.Nodup ∧
      (∀ a : Attribute, a ∈ u.attributes ↔ ∃ c' ∈ c :: cs, a ∈ c'.attributes) ∧
      (∀ mth : Method, mth ∈ u.methods ↔ ∃ c' ∈ c :: cs, mth ∈ c'.methods) := by
  rw [List.foldl_cons]
  have h0 : UMLModel.empty.add_class c = ⟨[c], []⟩ := rfl
  rw [h0]
  obtain ⟨u, hcls, hname, hna, hnm, hma, hmm⟩ :=
    add_class_dups_aux cs c [] hnames (hattrs c (by simp)) (hmeths c (by simp))
      (fun c' hc' => hattrs c' (by simp [hc'])) (fun c' hc' => hmeths c' (by simp [hc']))
  refine ⟨u, hcls, hname, hna, hnm, ?_, ?_⟩
  · intro a
    rw [hma a]
    constructor
    · rintro (h | ⟨c', hc', h⟩)
      · exact ⟨c, by simp, h⟩
      · exact ⟨c', by simp [hc'], h⟩
    · rintro ⟨c', hc', h⟩
      rcases List.mem_cons.mp hc' with hcc | hc'
      · subst hcc
        exact Or.inl h
      · exact Or.inr ⟨c', hc', h⟩
  · intro mth
    rw [hmm mth]
    constructor
    · rintro (h | ⟨c', hc', h⟩)
      · exact ⟨c, by simp, h⟩
      · exact ⟨c', by simp [hc'], h⟩
    · rintro ⟨c', hc', h⟩
      rcases List.mem_cons.mp hc' with hcc | hc'
      · subst hcc
        exact Or.inl h
      · exact Or.inr ⟨c', hc', h⟩

/-- Witness for the amended C4: merging "Order" and "ORDER" with
duplicate-free member lists yields one deduplicated union class. -/
theorem c4_amended_witness :
    ∃ u, (([mergeWitnessA, mergeWitnessB] : List UMLClass).foldl UMLModel.add_class
        UMLModel.empty).classes = [u] ∧
      u.name = mergeWitnessA.name ∧ u.attributes.Nodup ∧ u.methods.Nodup ∧
      (∀ a : Attribute, a ∈ u.attributes ↔
        ∃ c' ∈ [mergeWitnessA, mergeWitnessB], a ∈ c'.attributes) ∧
      (∀ mth : Method, mth ∈ u.methods ↔
        ∃ c' ∈ [mergeWitnessA, mergeWitnessB], mth ∈ c'.methods) :=
  c4_amended_merge_union mergeWitnessA [mergeWitnessB] (by decide) (by decide) (by decide)

/-- C5: for every model satisfying the uniqueness invariant,
`from_dict (to_dict m)` rebuilds a model equal to `m` in every field, and
rendering the rebuilt model yields byte-identical diagram source (on the
renderer embedding; the shipped renderer module itself cannot be imported,
see the module note at the renderer definitions). -/
theorem c5_serialization_roundtrip (m : UMLModel) (h : m.Invariant) :
    UMLModel.from_dict m.to_dict = .ok m ∧
    ∃ m2, UMLModel.from_dict m.to_dict = .ok m2 ∧
      convert_to_mermaid m2 = convert_to_mermaid m := by
  have h1 := from_dict_to_dict m h
  exact ⟨h1, m, h1, rfl⟩

/-- Witness for C5 on a concrete two-class model with an attribute, a
method and a relationship. -/
theorem c5_serialization_roundtrip_witness :
    UMLModel.from_dict exampleModel.to_dict = .ok exampleModel ∧
    ∃ m2, UMLModel.from_dict exampleModel.to_dict = .ok m2 ∧
      convert_to_mermaid m2 = convert_to_mermaid exampleModel :=
  c5_serialization_roundtrip exampleModel (by decide)

/-- C6: after `_post_process_uml_model`, no relationship is a
case-insensitive self-loop, every class's attribute and method lists are
duplicate-free by case-insensitive name, classes are ordered by
case-insensitive name, and relationships by the case-insensitive
(source, target) pair. Being a pure function of the model, two builds
from identical inputs produce identically ordered output. -/
theorem c6_post_process_normalization (m : UMLModel) :
    (∀ rel ∈ (post_process_uml_model m).relationships,
        pyLower rel.source ≠ pyLower rel.target) ∧
    (∀ cls ∈ (post_process_uml_model m).classes,
        (cls.attributes.map (fun attr => pyLower attr.name)).Nodup ∧
        (cls.methods.map (fun mth => pyLower mth.name)).Nodup) ∧
    (post_process_uml_model m).classes.Pairwise (fun a b => classSortLe a b = true) ∧
    (post_process_uml_model m).relationships.Pairwise (fun a b => relSortLe a b = true) := by
  refine ⟨?_, ?_, ?_, ?_⟩
  · intro rel hrel
    have h1 := mem_of_mem_pySort _ _ _ hrel
    rw [List.mem_filter] at h1
    have h2 := h1.2
    intro heq
    rw [heq] at h2
    simp at h2
  · intro cls hcls
    have h1 := mem_of_mem_pySort _ _ _ hcls
    simp only [post_process_uml_model, List.map_map, List.mem_map] at h1
    obtain ⟨pre0, _hpre0, hcls_eq⟩ := h1
    subst hcls_eq
    exact ⟨(dedupByKey_keys _ pre0.attributes []).1, (dedupByKey_keys _ pre0.methods []).1⟩
  · exact pairwise_pySort classSortLe classSortLe_total classSortLe_trans _
  · exact pairwise_pySort relSortLe relSortLe_total relSortLe_trans _

/-- Witness for C6: in the post-processed example model the class
"Account" appears with duplicate-free member name lists. -/
theorem c6_post_process_witness :
    (postProcessExampleClass.attributes.map (fun attr => pyLower attr.name)).Nodup ∧
    (postProcessExampleClass.methods.map (fun mth => pyLower mth.name)).Nodup :=
  (c6_post_process_normalization postProcessExample).2.1 postProcessExampleClass (by decide)

/-- C7: `remove_class` reports whether a class matched case-insensitively;
on a miss the model is unchanged; on a hit exactly the relationships whose
stored source or target equals the argument case-sensitively are removed,
so a relationship endpoint differing only in letter case survives. -/
theorem c7_remove_class_semantics (m : UMLModel) (name : String) :
    ((m.remove_class name).2 =
      m.classes.any (fun cls => pyLower cls.name == pyLower name)) ∧
    ((m.remove_class name).2 = true →
      (m.remove_class name).1.relationships =
        m.relationships.filter (fun rel => !(rel.source == name) && !(rel.target == name))) ∧
    ((m.remove_class name).2 = false → (m.remove_class name).1 = m) ∧
    (∀ rel ∈ m.relationships, rel.source ≠ name → rel.target ≠ name →
      rel ∈ (m.remove_class name).1.relationships) := by
  cases hf : m.find_class name with
  | some cls0 =>
    have hrc : m.remove_class name =
        ({ classes := removeFirst (fun cls => pyLower cls.name == pyLower name) m.classes,
           relationships := m.relationships.filter
             (fun rel => !(rel.source == name) && !(rel.target == name)) }, true) := by
      unfold UMLModel.remove_class
      rw [hf]
    have hany : m.classes.any (fun cls => pyLower cls.name == pyLower name) = true := by
      rw [List.any_eq_true]
      have hf2 : m.classes.find? (fun cls => pyLower cls.name == pyLower name) = some cls0 := hf
      have h3 := List.find?_some hf2
      exact ⟨cls0, List.mem_of_find?_eq_some hf2, h3⟩
    rw [hrc]
    refine ⟨by rw [hany], fun _ => rfl, by simp, ?_⟩
    intro rel hrel hs ht
    simp only
    rw [List.mem_filter]
    refine ⟨hrel, ?_⟩
    simp [hs, ht]
  | none =>
    have hrc : m.remove_class name = (m, false) := by
      unfold UMLModel.remove_class
      rw [hf]
    have hany : m.classes.any (fun cls => pyLower cls.name == pyLower name) = false := by
      rw [List.any_eq_false]
      intro x hx
      have hf2 : m.classes.find? (fun cls => pyLower cls.name == pyLower name) = none := hf
      exact List.find?_eq_none.mp hf2 x hx
    rw [hrc]
    exact ⟨by rw [hany], by simp, fun _ => rfl, fun rel hrel _ _ => hrel⟩

/-- Witness for C7: removing "USER" from the example model matches class
"User" case-insensitively, yet the relationship whose stored source is
"User" (differing only in case from the argument) survives. -/
theorem c7_remove_class_witness :
    (⟨"User", "Account", .association, "1", "1..*", "owns", 1⟩ : UMLRelationship) ∈
      (exampleModel.remove_class "USER").1.relationships :=
  (c7_remove_class_semantics exampleModel "USER").2.2.2 _ (by decide) (by decide) (by decide)

/-- C8: the duplicate-entity merge yields pairwise-distinct
case-insensitive texts; each kept entity is the first occurrence of the
maximal confidence within its group (earlier same-key entities are
strictly weaker, later ones no stronger); every input key is represented;
and merging [("Order", 0.9), ("order", 0.6)] keeps exactly the
higher-confidence casing "Order". -/
theorem c8_merge_duplicate_entities_spec :
    (∀ es : List NLPEntity,
      ((merge_duplicate_entities es).map entityKey).Nodup ∧
      (∀ x ∈ merge_duplicate_entities es, ChosenFrom es x) ∧
      (∀ y ∈ es, ∃ x ∈ merge_duplicate_entities es, entityKey x = entityKey y)) ∧
    merge_duplicate_entities [orderEntityHigh, orderEntityLow] = [orderEntityHigh] := by
  constructor
  · intro es
    have h := merge_duplicate_entities_inv es
    exact ⟨h.1.1, h.1.2, h.2⟩
  · decide

/-- Witness for C8: the kept "Order" entity is chosen from the concrete
two-entity list. -/
theorem c8_merge_witness :
    ChosenFrom [orderEntityHigh, orderEntityLow] orderEntityHigh :=
  (c8_merge_duplicate_entities_spec.1 [orderEntityHigh, orderEntityLow]).2.1
    orderEntityHigh (by decide)

/-- C9 counterexample: on a model with classes, one attribute, no
methods and one relationship the code scores 80 — the 20-point bonus
fires without any method — while the claim's bonus condition
(attributes, methods and relationships simultaneously present) predicts
60. -/
theorem c9_counterexample_bonus_without_methods :
    qualityScoreOfModel qualityExample = 80 ∧
    quality_score_per_claim qualityExample.classes.length (attributesTotal qualityExample)
      (methodsTotal qualityExample) qualityExample.relationships.length = 60 ∧
    (80 : ℚ) ≠ 60 := by
  refine ⟨?_, ?_, by norm_num⟩
  · norm_num [qualityScoreOfModel, calculate_quality_score, attributesTotal, methodsTotal,
      qualityExample, min_def]
  · norm_num [quality_score_per_claim, attributesTotal, methodsTotal, qualityExample]

/-- C9 (amended): the quality score equals 20 points for each of
classes, attributes, methods and relationships being present, plus a
20-point bonus exactly when classes, attributes and relationships are
all present (methods play no role in the bonus); it always lies in
[0, 100]. -/
theorem c9_amended_quality_score (c a mm r : ℕ) :
    calculate_quality_score c a mm r =
      (if c > 0 then (20 : ℚ) else 0) + (if a > 0 then 20 else 0)
      + (if mm > 0 then 20 else 0) + (if r > 0 then 20 else 0)
      + (if c > 0 ∧ a > 0 ∧ r > 0 then 20 else 0) ∧
    0 ≤ calculate_quality_score c a mm r ∧ calculate_quality_score c a mm r ≤ 100 := by
  unfold calculate_quality_score
  by_cases h1 : c > 0 <;> by_cases h2 : a > 0 <;> by_cases h3 : mm > 0 <;>
    by_cases h4 : r > 0 <;>
    simp [h1, h2, h3, h4, min_def] <;> norm_num

/-- C10: rendering any model whose class list is empty — whatever its
relationships — produces exactly the fixed note diagram (on the renderer
embedding; the shipped module raises `SyntaxError` at import, see the
renderer module note). -/
theorem c10_empty_model_note_diagram (rels : List UMLRelationship) :
    convert_to_mermaid { classes := [], relationships := rels } =
      "classDiagram\n    note \"No classes found\"" := rfl
